import Mathlib

/-!
Verification of the `do_work_async` deferred-timer task in
`src/examples/small/src/work.rs` (repository `nrc/apr-intro`).

The Rust function:

* prints `"starting work {x} on thread {tid}"`,
* creates a shared `AtomicBool` flag initialised to `false`,
* spawns a timer thread that sleeps 500 ms and then does
  `flag.store(true, Ordering::SeqCst)` (the only store, storing only `true`),
* awaits `poll_fn` of a closure that, on each poll, does
  `flag.load(Ordering::SeqCst)`; if `true` it prints
  `"work done! {x} on thread {tid}"` and returns `Poll::Ready(())`,
  otherwise it calls `lw.wake()` once and returns `Poll::Pending`.

The embedding below is split into

* `do_work_async_init` — the straight-line creation part (lines 23-36),
* `do_work_async_poll` — the pure poll closure (lines 40-51), a function of
  the observed flag value, the label and the polling thread identity only,
* a sequentially-consistent trace model (`SysEvent`, `flagValue`,
  `ValidTrace`) of the interleaving between the timer thread's store and the
  poller's loads, used for the monotonicity and happens-before claims.
-/

namespace AprIntro

/-- Result of one readiness poll, mirroring `std::task::Poll`. -/
inductive Poll (α : Type) where
  | Ready (a : α)
  | Pending
  deriving DecidableEq, Repr

/-- Diagnostic messages the function can print, kept structured so that the
label and thread identity they carry are explicit; `Diag.render` gives the
exact text printed by the two `println!` calls. -/
inductive Diag where
  | startMsg (label : Int) (tid : Nat)
  | doneMsg (label : Int) (tid : Nat)
  deriving DecidableEq, Repr

/-- Exact text of each diagnostic (Rust `{:?}` on `ThreadId` prints
`ThreadId(n)`). -/
def Diag.render : Diag → String
  | .startMsg x t => "starting work " ++ toString x ++ " on thread ThreadId(" ++ toString t ++ ")"
  | .doneMsg x t => "work done! " ++ toString x ++ " on thread ThreadId(" ++ toString t ++ ")"

/-- Memory orderings of `std::sync::atomic`. -/
inductive MemOrder where
  | Relaxed
  | Acquire
  | Release
  | AcqRel
  | SeqCst
  deriving DecidableEq, Repr

/-- Ordering used by the timer thread's store
(`timeout_flag.store(true, Ordering::SeqCst)`, work.rs line 35). -/
def flagStoreOrder : MemOrder := .SeqCst

/-- Ordering used by the poll closure's load
(`flag.load(Ordering::SeqCst)`, work.rs line 41). -/
def flagLoadOrder : MemOrder := .SeqCst

/-- The only value the timer thread ever stores into the flag. -/
def flagStoreValue : Bool := true

/-- Everything one call of the poll closure does: its returned `Poll` value,
the diagnostics it prints, and how many times it invokes the wake-callback. -/
structure PollOutcome where
  result : Poll Unit
  messages : List Diag
  wakeCalls : Nat
  deriving DecidableEq, Repr

/-- The poll closure passed to `poll_fn` (work.rs lines 40-51): if the flag
reads `true`, print the done message and return `Ready(())`; otherwise call
`lw.wake()` and return `Pending`. -/
def do_work_async_poll (x : Int) (tid : Nat) (flag : Bool) : PollOutcome :=
  if flag then
    { result := .Ready (), messages := [.doneMsg x tid], wakeCalls := 0 }
  else
    { result := .Pending, messages := [], wakeCalls := 1 }

/-- Record of the creation side effects of `do_work_async`. -/
structure CreatedTask where
  label : Int
  flagInit : Bool
  startDiags : List Diag
  timerDelayMs : Nat
  timerStores : List Bool
  deriving DecidableEq, Repr

/-- Creation part of `do_work_async` (work.rs lines 23-36): print the start
message, create the flag initialised `false`, spawn one timer thread that
sleeps `500` ms and then performs the single store of `true`. -/
def do_work_async_init (x : Int) (tid : Nat) : CreatedTask :=
  { label := x
    flagInit := false
    startDiags := [.startMsg x tid]
    timerDelayMs := 500
    timerStores := [flagStoreValue] }

/-- Diagnostics printed by a run of the poll loop over a sequence of observed
flag values. -/
def pollTraceMsgs (x : Int) (tid : Nat) : List Bool → List Diag
  | [] => []
  | b :: bs => (do_work_async_poll x tid b).messages ++ pollTraceMsgs x tid bs

/-- Results returned by a run of the poll loop over a sequence of observed
flag values. -/
def pollResults (x : Int) (tid : Nat) : List Bool → List (Poll Unit)
  | [] => []
  | b :: bs => (do_work_async_poll x tid b).result :: pollResults x tid bs

/-- All diagnostics of one `do_work_async` task: the start message emitted at
creation followed by whatever the polls print. -/
def runDiagnostics (x : Int) (tid : Nat) (obs : List Bool) : List Diag :=
  (do_work_async_init x tid).startDiags ++ pollTraceMsgs x tid obs

/-- Events on the shared flag, in the sequentially-consistent interleaving
granted by the `SeqCst` orderings: a store by the timer thread, or a load
(observation) by a poll. -/
inductive SysEvent where
  | timerStore (v : Bool)
  | pollObs (b : Bool)
  deriving DecidableEq, Repr

/-- Effect of one event on the flag: a store overwrites it, a load leaves
it unchanged. -/
def stepFlag (f : Bool) : SysEvent → Bool
  | .timerStore v => v
  | .pollObs _ => f

/-- Value of the flag after a trace of events, starting from the initial
`false` written by `AtomicBool::new(false)`. -/
def flagValue (es : List SysEvent) : Bool := es.foldl stepFlag false

/-- In `do_work_async` the timer thread is the only writer and it stores only
`true` (work.rs line 35): no party ever stores `false` after creation. -/
def StoresOnlyTrue (es : List SysEvent) : Prop :=
  ∀ e ∈ es, ∀ v, e = SysEvent.timerStore v → v = true

/-- Sequential consistency of the loads: each poll observes exactly the
current value of the flag at its position in the interleaving. -/
def ReadsConsistent (es : List SysEvent) : Prop :=
  ∀ i : Fin es.length, ∀ b, es.get i = SysEvent.pollObs b → b = flagValue (es.take i.val)

/-- A trace the program can produce: only-true stores and SC-consistent
loads. -/
def ValidTrace (es : List SysEvent) : Prop := StoresOnlyTrue es ∧ ReadsConsistent es

/-- A concrete valid trace used to witness the trace theorems: the timer
fires, then two polls observe `true`. -/
def sampleTrace : List SysEvent :=
  [SysEvent.timerStore true, SysEvent.pollObs true, SysEvent.pollObs true]

end AprIntro

namespace AprIntro

lemma foldl_stepFlag_of_true (es : List SysEvent)
    (h : ∀ e ∈ es, ∀ v, e = SysEvent.timerStore v → v = true) :
    es.foldl stepFlag true = true := by
  induction es with
  | nil => rfl
  | cons e es ih =>
    have ht : ∀ e2 ∈ es, ∀ v, e2 = SysEvent.timerStore v → v = true :=
      fun e2 hm => h e2 (List.mem_cons_of_mem _ hm)
    cases e with
    | timerStore v =>
      have hv : v = true := h _ (List.mem_cons_self _ _) v rfl
      subst hv
      simpa [stepFlag] using ih ht
    | pollObs b =>
      simpa [stepFlag] using ih ht

lemma storesOnlyTrue_take (es : List SysEvent) (h : StoresOnlyTrue es) (n : Nat) :
    StoresOnlyTrue (es.take n) :=
  fun e hm => h e (List.mem_of_mem_take hm)

lemma flagValue_take_mono (es : List SysEvent) (h : StoresOnlyTrue es)
    (i j : Nat) (hij : i ≤ j) (hi : flagValue (es.take i) = true) :
    flagValue (es.take j) = true := by
  have hj : j = i + (j - i) := (Nat.add_sub_cancel' hij).symm
  rw [hj, List.take_add]
  unfold flagValue
  rw [List.foldl_append]
  have hseg : ∀ e ∈ (es.drop i).take (j - i), ∀ v, e = SysEvent.timerStore v → v = true :=
    fun e hm => h e (List.mem_of_mem_drop (List.mem_of_mem_take hm))
  have hbase : (es.take i).foldl stepFlag false = true := hi
  rw [hbase]
  exact foldl_stepFlag_of_true _ hseg

lemma exists_store_of_flagValue_true (es : List SysEvent) (h : StoresOnlyTrue es)
    (hv : flagValue es = true) : ∃ j : Fin es.length, es.get j = SysEvent.timerStore true := by
  induction es with
  | nil => exact absurd hv (by simp [flagValue])
  | cons e es ih =>
    cases e with
    | timerStore v =>
      have : v = true := h _ (List.mem_cons_self _ _) v rfl
      subst this
      exact ⟨⟨0, Nat.succ_pos _⟩, rfl⟩
    | pollObs b =>
      have ht : StoresOnlyTrue es := fun e2 hm => h e2 (List.mem_cons_of_mem _ hm)
      have hv2 : flagValue es = true := by
        simpa [flagValue, stepFlag] using hv
      obtain ⟨j, hj⟩ := ih ht hv2
      exact ⟨⟨j.val + 1, Nat.succ_lt_succ j.isLt⟩, by simpa using hj⟩

end AprIntro

namespace AprIntro

/-- C3: the flag is monotone. In any valid trace (the timer thread is the
only writer and it stores only `true`), once the flag value is `true` after
some prefix, every poll at or after that point observes `true`: the flag
never reverts to `false`. -/
theorem flag_monotone (es : List SysEvent) (h : ValidTrace es) (i : Nat)
    (hi : flagValue (es.take i) = true) :
    ∀ k : Fin es.length, i ≤ k.val → ∀ b, es.get k = SysEvent.pollObs b → b = true := by
  intro k hk b hb
  have hread := h.2 k b hb
  rw [hread]
  exact flagValue_take_mono es h.1 i k.val hk hi

/-- Witness for `flag_monotone` at the concrete trace `sampleTrace`: the flag
is `true` after the first event, and the poll at position 2 observes `true`. -/
theorem flag_monotone_witness :
    flagValue (sampleTrace.take 1) = true ∧ true = true :=
  ⟨by decide,
   flag_monotone sampleTrace
     (by unfold ValidTrace StoresOnlyTrue ReadsConsistent sampleTrace; decide)
     1 (by decide) ⟨2, by decide⟩ (by decide) true (by decide)⟩

/-- C8: happens-before. Both the timer thread's store and the poll's load use
sequentially-consistent ordering, and in every valid SC trace any poll that
observes the flag `true` is preceded in the interleaving by the timer
thread's store of `true`. -/
theorem store_happens_before_true_poll (es : List SysEvent) (h : ValidTrace es)
    (i : Fin es.length) (hi : es.get i = SysEvent.pollObs true) :
    flagStoreOrder = MemOrder.SeqCst ∧ flagLoadOrder = MemOrder.SeqCst ∧
    ∃ j : Fin es.length, j.val < i.val ∧ es.get j = SysEvent.timerStore true := by
  refine ⟨rfl, rfl, ?_⟩
  have hv : flagValue (es.take i.val) = true := (h.2 i true hi).symm
  obtain ⟨j, hj⟩ :=
    exists_store_of_flagValue_true (es.take i.val) (storesOnlyTrue_take es h.1 i.val) hv
  have hjlen : j.val < (es.take i.val).length := j.isLt
  have hji : j.val < i.val := lt_of_lt_of_le hjlen (by simp [List.length_take])
  have hjes : j.val < es.length := lt_trans hji i.isLt
  refine ⟨⟨j.val, hjes⟩, hji, ?_⟩
  have hidx : (es.take i.val).get j = es.get ⟨j.val, hjes⟩ := by
    simp [List.get_eq_getElem, List.getElem_take]
  rw [← hidx]
  exact hj

/-- Witness for `store_happens_before_true_poll` at the concrete trace
`sampleTrace`, whose poll at position 1 observes `true`. -/
theorem store_happens_before_witness :
    flagStoreOrder = MemOrder.SeqCst ∧ flagLoadOrder = MemOrder.SeqCst ∧
    ∃ j : Fin sampleTrace.length, j.val < 1 ∧ sampleTrace.get j = SysEvent.timerStore true :=
  store_happens_before_true_poll sampleTrace
    (by unfold ValidTrace StoresOnlyTrue ReadsConsistent sampleTrace; decide)
    ⟨1, by decide⟩ (by decide)

end AprIntro

namespace AprIntro

lemma pollTraceMsgs_append (x : Int) (tid : Nat) (as bs : List Bool) :
    pollTraceMsgs x tid (as ++ bs) = pollTraceMsgs x tid as ++ pollTraceMsgs x tid bs := by
  induction as with
  | nil => rfl
  | cons a as ih => simp [pollTraceMsgs, ih]

lemma pollTraceMsgs_replicate_false (x : Int) (tid : Nat) (n : Nat) :
    pollTraceMsgs x tid (List.replicate n false) = [] := by
  induction n with
  | zero => rfl
  | succ n ih => simpa [List.replicate_succ, pollTraceMsgs, do_work_async_poll] using ih

lemma pollTraceMsgs_replicate_true (x : Int) (tid : Nat) (m : Nat) :
    pollTraceMsgs x tid (List.replicate m true) = List.replicate m (Diag.doneMsg x tid) := by
  induction m with
  | zero => rfl
  | succ m ih => simp [List.replicate_succ, pollTraceMsgs, do_work_async_poll, ih]

lemma pollResults_append (x : Int) (tid : Nat) (as bs : List Bool) :
    pollResults x tid (as ++ bs) = pollResults x tid as ++ pollResults x tid bs := by
  induction as with
  | nil => rfl
  | cons a as ih => simp [pollResults, ih]

lemma pollResults_replicate_false (x : Int) (tid : Nat) (n : Nat) :
    pollResults x tid (List.replicate n false) = List.replicate n Poll.Pending := by
  induction n with
  | zero => rfl
  | succ n ih => simp [List.replicate_succ, pollResults, do_work_async_poll, ih]

lemma pollResults_replicate_true (x : Int) (tid : Nat) (m : Nat) :
    pollResults x tid (List.replicate m true) = List.replicate m (Poll.Ready ()) := by
  induction m with
  | zero => rfl
  | succ m ih => simp [List.replicate_succ, pollResults, do_work_async_poll, ih]

end AprIntro

namespace AprIntro

/-- C5: under a conforming executor — the polls observe `false` some number
of times and stop at the first `true` observation (first `Ready`) — the full
diagnostic output is exactly one start message followed by exactly one done
message: one of each, in that order, never duplicated. -/
theorem one_start_one_done (x : Int) (tid : Nat) (n : Nat) (obs : List Bool)
    (h : obs = List.replicate n false ++ [true]) :
    runDiagnostics x tid obs = [Diag.startMsg x tid, Diag.doneMsg x tid] := by
  subst h
  simp [runDiagnostics, do_work_async_init, pollTraceMsgs_append,
    pollTraceMsgs_replicate_false, pollTraceMsgs, do_work_async_poll]

/-- Witness for `one_start_one_done`: label 7, two pending polls, then the
completing poll. -/
theorem one_start_one_done_witness :
    runDiagnostics 7 0 (List.replicate 2 false ++ [true]) =
      [Diag.startMsg 7 0, Diag.doneMsg 7 0] :=
  one_start_one_done 7 0 2 _ rfl

/-- C6: under a conforming executor the run yields `Ready` exactly once, and
any poll invoked after completion (out of contract) still returns a
well-defined `Poll` value — `Ready` or `Pending` — rather than panicking:
the closure is total. -/
theorem ready_once_no_panic (x : Int) (tid : Nat) (n : Nat) (obs : List Bool)
    (h : obs = List.replicate n false ++ [true]) :
    (pollResults x tid obs).count (Poll.Ready ()) = 1 ∧
    ∀ b : Bool, (do_work_async_poll x tid b).result = Poll.Ready () ∨
      (do_work_async_poll x tid b).result = Poll.Pending := by
  constructor
  · subst h
    rw [pollResults_append, pollResults_replicate_false]
    simp [pollResults, do_work_async_poll, List.count_replicate]
  · intro b
    cases b
    · exact Or.inr (by simp [do_work_async_poll])
    · exact Or.inl (by simp [do_work_async_poll])

/-- Witness for `ready_once_no_panic`: label 3, one pending poll, then the
completing poll. -/
theorem ready_once_no_panic_witness :
    (pollResults 3 0 (List.replicate 1 false ++ [true])).count (Poll.Ready ()) = 1 ∧
    ∀ b : Bool, (do_work_async_poll 3 0 b).result = Poll.Ready () ∨
      (do_work_async_poll 3 0 b).result = Poll.Pending :=
  ready_once_no_panic 3 0 1 _ rfl

/-- C9: the poll closure keeps no completion state. Its outcome is a function
of the observed flag, the label and the thread only, so on a run in which the
flag is observed `true` on `m + 1` polls — including polls made after a
previous poll already returned `Ready` — every one of them returns `Ready`
and prints the done diagnostic again. -/
theorem poll_keeps_no_state (x : Int) (tid : Nat) (n m : Nat) (obs : List Bool)
    (h : obs = List.replicate n false ++ List.replicate (m + 1) true) :
    pollTraceMsgs x tid obs = List.replicate (m + 1) (Diag.doneMsg x tid) ∧
    pollResults x tid obs =
      List.replicate n Poll.Pending ++ List.replicate (m + 1) (Poll.Ready ()) := by
  subst h
  constructor
  · rw [pollTraceMsgs_append, pollTraceMsgs_replicate_false,
      pollTraceMsgs_replicate_true, List.nil_append]
  · rw [pollResults_append, pollResults_replicate_false, pollResults_replicate_true]

/-- Witness for `poll_keeps_no_state`: one pending poll, then two polls that
both observe `true`; the second `Ready` poll emits the done message again. -/
theorem poll_keeps_no_state_witness :
    pollTraceMsgs 5 0 (List.replicate 1 false ++ List.replicate 2 true) =
      List.replicate 2 (Diag.doneMsg 5 0) ∧
    pollResults 5 0 (List.replicate 1 false ++ List.replicate 2 true) =
      List.replicate 1 Poll.Pending ++ List.replicate 2 (Poll.Ready ()) :=
  poll_keeps_no_state 5 0 1 1 _ rfl

end AprIntro

namespace AprIntro

/-- C1: polling with the shared flag read as `true` emits exactly the
"work done" diagnostic carrying the task's label and the polling thread's
identity, and returns `Ready` of `Unit` (no value). The rendered text
contains the label and the thread identity verbatim. -/
theorem poll_true_emits_done_and_ready (x : Int) (tid : Nat) :
    do_work_async_poll x tid true =
      { result := .Ready (), messages := [.doneMsg x tid], wakeCalls := 0 } ∧
    (Diag.doneMsg x tid).render =
      "work done! " ++ toString x ++ " on thread ThreadId(" ++ toString tid ++ ")" := by
  constructor
  · simp [do_work_async_poll]
  · rfl

/-- C2: polling with the shared flag read as `false` invokes the
wake-callback exactly once, prints nothing, and returns `Pending`. -/
theorem poll_false_wakes_once_and_pending (x : Int) (tid : Nat) :
    do_work_async_poll x tid false =
      { result := .Pending, messages := [], wakeCalls := 1 } := by
  simp [do_work_async_poll]

/-- C4: creating the task with any label `x` initialises the shared flag to
`false`, emits exactly one start diagnostic carrying the label and the
calling thread identity, spawns a timer that waits the fixed 500 ms, and the
timer performs exactly one store, of `true`, with a sequentially-consistent
atomic write. -/
theorem init_spec (x : Int) (tid : Nat) :
    (do_work_async_init x tid).flagInit = false ∧
    (do_work_async_init x tid).startDiags = [.startMsg x tid] ∧
    (do_work_async_init x tid).startDiags.length = 1 ∧
    (do_work_async_init x tid).timerDelayMs = 500 ∧
    (do_work_async_init x tid).timerStores = [true] ∧
    flagStoreOrder = .SeqCst := by
  refine ⟨rfl, rfl, rfl, rfl, rfl, rfl⟩

/-- C7: the label influences only the diagnostic text: for any two labels the
poll result, the number of wake-callback invocations, and every
non-diagnostic creation effect (flag initialisation, timer delay, timer
stores) coincide. -/
theorem label_noninterference (x1 x2 : Int) (tid : Nat) (b : Bool) :
    (do_work_async_poll x1 tid b).result = (do_work_async_poll x2 tid b).result ∧
    (do_work_async_poll x1 tid b).wakeCalls = (do_work_async_poll x2 tid b).wakeCalls ∧
    (do_work_async_init x1 tid).flagInit = (do_work_async_init x2 tid).flagInit ∧
    (do_work_async_init x1 tid).timerDelayMs = (do_work_async_init x2 tid).timerDelayMs ∧
    (do_work_async_init x1 tid).timerStores = (do_work_async_init x2 tid).timerStores := by
  cases b <;> simp [do_work_async_poll, do_work_async_init]

/-- C10: the wake-callback is invoked on a poll exactly when that poll
observes the flag `false` and returns `Pending`; a poll returning `Ready`
never invokes it. -/
theorem wake_iff_pending (x : Int) (tid : Nat) (b : Bool) :
    ((do_work_async_poll x tid b).wakeCalls = 1 ↔
      (do_work_async_poll x tid b).result = .Pending) ∧
    ((do_work_async_poll x tid b).result = .Ready () →
      (do_work_async_poll x tid b).wakeCalls = 0) := by
  cases b <;> simp [do_work_async_poll]

/-- Witness for `wake_iff_pending` at label 2, thread 0, flag `false`. -/
theorem wake_iff_pending_witness :
    ((do_work_async_poll 2 0 false).wakeCalls = 1 ↔
      (do_work_async_poll 2 0 false).result = Poll.Pending) ∧
    ((do_work_async_poll 2 0 false).result = Poll.Ready () →
      (do_work_async_poll 2 0 false).wakeCalls = 0) :=
  wake_iff_pending 2 0 false

end AprIntro
